import Mathlib

/-!
Verification development for the rn-show-more-text truncation engine.

The TypeScript sources (src/helper.ts and src/rnShowMoreText.tsx) are embedded
shallowly: a JavaScript string is modelled as a `List Char` of Unicode scalar
values, and every place where the source manipulates UTF-16 indices
(`String.prototype.length`, bracket indexing, `match.index`, `lastIndex`)
is modelled at UTF-16 code-unit granularity via an explicit expansion of
astral code points into surrogate pairs.  Pixel widths are modelled as
rationals.  Unicode NFC normalization (`String.prototype.normalize("NFC")`)
is kept abstract as a function parameter `nfc`; the caching wrapper around it
is modelled separately (`getNormalizedString`).
-/

/-- Zero-width joiner U+200D, used by both emoji regexes in helper.ts. -/
def zwj : Char := Char.ofNat 0x200D

/-- Variation selector 16 U+FE0F, used by both emoji regexes in helper.ts. -/
def vs16 : Char := Char.ofNat 0xFE0F

/-- Models the Unicode `Extended_Pictographic` property used by
`EMOJI_REGEX` and `SIMPLE_EMOJI_REGEX` in helper.ts, restricted to the
principal emoji blocks.  Regional indicators U+1F1E6..U+1F1FF are not
Extended_Pictographic (which is why `EMOJI_REGEX` carries a separate
`\p{Regional_Indicator}{2}` alternative). -/
def isEP (c : Char) : Bool :=
  let n := c.toNat
  n = 0xA9 ∨ n = 0xAE ∨ n = 0x203C ∨ n = 0x2049 ∨ n = 0x2122 ∨ n = 0x2139 ∨
  (0x2600 ≤ n ∧ n ≤ 0x27BF) ∨ (0x2B00 ≤ n ∧ n ≤ 0x2BFF) ∨
  (0x1F000 ≤ n ∧ n ≤ 0x1F0FF) ∨ (0x1F300 ≤ n ∧ n ≤ 0x1F5FF) ∨
  (0x1F600 ≤ n ∧ n ≤ 0x1F64F) ∨ (0x1F680 ≤ n ∧ n ≤ 0x1F6FF) ∨
  (0x1F700 ≤ n ∧ n ≤ 0x1F77F) ∨ (0x1F900 ≤ n ∧ n ≤ 0x1F9FF) ∨
  (0x1FA00 ≤ n ∧ n ≤ 0x1FAFF)

/-- Models the Unicode `Regional_Indicator` property (`\p{Regional_Indicator}`
in `EMOJI_REGEX`): U+1F1E6..U+1F1FF. -/
def isRI (c : Char) : Bool :=
  0x1F1E6 ≤ c.toNat ∧ c.toNat ≤ 0x1F1FF

/-- Number of UTF-16 code units occupied by a scalar value. -/
def utf16Len (c : Char) : Nat :=
  if c.toNat < 0x10000 then 1 else 2

/-- The UTF-16 code units of a scalar value (surrogate pair for astral
code points).  JavaScript bracket indexing on a string yields these units. -/
def utf16Units (c : Char) : List Nat :=
  if c.toNat < 0x10000 then [c.toNat]
  else [0xD800 + (c.toNat - 0x10000) / 0x400, 0xDC00 + (c.toNat - 0x10000) % 0x400]

/-- The UTF-16 code-unit sequence of a string. -/
def strUtf16 (l : List Char) : List Nat :=
  (l.map utf16Units).flatten

/-- UTF-16 length of a string (JavaScript `String.prototype.length`). -/
def utf16Length (l : List Char) : Nat :=
  (l.map utf16Len).sum

/-- A token produced by scanning a string with one of the emoji regexes:
either one whole emoji-cluster match, or one non-matching code point. -/
inductive EToken where
  | emoji (cs : List Char)
  | plain (c : Char)
deriving Repr, DecidableEq

/-- The characters of a token. -/
def tokChars : EToken → List Char
  | .emoji cs => cs
  | .plain c => [c]

/-- Greedy tail of a `SIMPLE_EMOJI_REGEX` match: consumes
`(️ | ‍ \p{Extended_Pictographic})*` after the initial
pictographic code point.  The first argument is recursion fuel; any fuel
at least the list length is sufficient. -/
def simpleTailF : Nat → List Char → List Char × List Char
  | 0, l => ([], l)
  | fuel + 1, l =>
    match l with
    | [] => ([], [])
    | c :: rest =>
      if c = vs16 then
        let p := simpleTailF fuel rest
        (c :: p.1, p.2)
      else if c = zwj then
        match rest with
        | [] => ([], [c])
        | d :: rest2 =>
          if isEP d then
            let p := simpleTailF fuel rest2
            (c :: d :: p.1, p.2)
          else ([], c :: d :: rest2)
      else ([], c :: rest)

def simpleTail (l : List Char) : List Char × List Char :=
  simpleTailF l.length l

/-- Scanning a string with `SIMPLE_EMOJI_REGEX =
/(\p{Extended_Pictographic}(?:️|‍\p{Extended_Pictographic})*)/gu`
as `visualSliceHelper` does: leftmost greedy matches become `emoji` tokens,
every other code point becomes a `plain` token. -/
def simpleScanF : Nat → List Char → List EToken
  | 0, _ => []
  | fuel + 1, l =>
    match l with
    | [] => []
    | c :: rest =>
      if isEP c then
        let p := simpleTail rest
        .emoji (c :: p.1) :: simpleScanF fuel p.2
      else .plain c :: simpleScanF fuel rest

def simpleScan (l : List Char) : List EToken :=
  simpleScanF l.length l

/-- Greedy tail of an `EMOJI_REGEX` first-alternative match: consumes
`(‍ \p{Extended_Pictographic} ️?)*`. -/
def emojiTailF : Nat → List Char → List Char × List Char
  | 0, l => ([], l)
  | _ + 1, [] => ([], [])
  | _ + 1, [c] => ([], [c])
  | fuel + 1, c :: d :: rest =>
    if c = zwj ∧ isEP d then
      match rest with
      | [] => ([c, d], [])
      | e :: rest2 =>
        if e = vs16 then
          let p := emojiTailF fuel rest2
          (c :: d :: e :: p.1, p.2)
        else
          let p := emojiTailF fuel (e :: rest2)
          (c :: d :: p.1, p.2)
    else ([], c :: d :: rest)

def emojiTail (l : List Char) : List Char × List Char :=
  emojiTailF l.length l

/-- An `EMOJI_REGEX` first-alternative match starting at pictographic
code point `c`: `\p{Extended_Pictographic} ️? (…)*`. -/
def emojiStart (c : Char) (rest : List Char) : List Char × List Char :=
  match rest with
  | [] => ([c], [])
  | e :: rest2 =>
    if e = vs16 then
      let p := emojiTail rest2
      (c :: e :: p.1, p.2)
    else
      let p := emojiTail (e :: rest2)
      (c :: p.1, p.2)

/-- Scanning a string with `EMOJI_REGEX =
/((?:\p{Extended_Pictographic}(?:️)?(?:‍\p{Extended_Pictographic}(?:️)?)*)|(?:\p{Regional_Indicator}{2}))/gu`
as the analyzer and the slice-position calculator do.  A pair of regional
indicators forms one match (a flag); the first alternative is tried first. -/
def emojiScanF : Nat → List Char → List EToken
  | 0, _ => []
  | fuel + 1, l =>
    match l with
    | [] => []
    | c :: rest =>
      if isEP c then
        let p := emojiStart c rest
        .emoji p.1 :: emojiScanF fuel p.2
      else if isRI c then
        match rest with
        | [] => [.plain c]
        | d :: rest2 =>
          if isRI d then .emoji [c, d] :: emojiScanF fuel rest2
          else .plain c :: emojiScanF fuel rest
      else .plain c :: emojiScanF fuel rest

def emojiScan (l : List Char) : List EToken :=
  emojiScanF l.length l

theorem simpleTailF_append : ∀ (fuel : Nat) (l : List Char),
    (simpleTailF fuel l).1 ++ (simpleTailF fuel l).2 = l := by
  intro fuel
  induction fuel with
  | zero => intro l; simp [simpleTailF]
  | succ n ih =>
    intro l
    match l with
    | [] => simp [simpleTailF]
    | c :: rest =>
      simp only [simpleTailF]
      by_cases h1 : c = vs16
      · simp only [h1, if_true]
        simpa using congrArg (vs16 :: ·) (ih rest)
      · simp only [h1, if_false]
        by_cases h2 : c = zwj
        · simp only [h2, if_true]
          match rest with
          | [] => simp
          | d :: rest2 =>
            by_cases h3 : isEP d
            · simp only [h3, if_true]
              simpa using congrArg (fun t => zwj :: d :: t) (ih rest2)
            · simp [h3]
        · simp [h2]

theorem simpleTail_append (l : List Char) :
    (simpleTail l).1 ++ (simpleTail l).2 = l :=
  simpleTailF_append l.length l

theorem simpleTail_snd_length (l : List Char) :
    (simpleTail l).2.length ≤ l.length := by
  have h := congrArg List.length (simpleTail_append l)
  simp only [List.length_append] at h
  omega

theorem emojiTailF_append : ∀ (fuel : Nat) (l : List Char),
    (emojiTailF fuel l).1 ++ (emojiTailF fuel l).2 = l := by
  intro fuel
  induction fuel with
  | zero => intro l; simp [emojiTailF]
  | succ n ih =>
    intro l
    match l with
    | [] => simp [emojiTailF]
    | [c] => simp [emojiTailF]
    | c :: d :: rest =>
      simp only [emojiTailF]
      by_cases h1 : c = zwj ∧ isEP d
      · simp only [h1, if_true]
        match rest with
        | [] => simp
        | e :: rest2 =>
          by_cases h2 : e = vs16
          · simp only [h2, if_true]
            simpa using congrArg (fun t => c :: d :: vs16 :: t) (ih rest2)
          · simp only [h2, if_false]
            simpa using congrArg (fun t => c :: d :: t) (ih (e :: rest2))
      · simp [h1]

theorem emojiTail_append (l : List Char) :
    (emojiTail l).1 ++ (emojiTail l).2 = l :=
  emojiTailF_append l.length l

theorem emojiTail_snd_length (l : List Char) :
    (emojiTail l).2.length ≤ l.length := by
  have h := congrArg List.length (emojiTail_append l)
  simp only [List.length_append] at h
  omega

theorem emojiStart_append (c : Char) (rest : List Char) :
    (emojiStart c rest).1 ++ (emojiStart c rest).2 = c :: rest := by
  match rest with
  | [] => simp [emojiStart]
  | e :: rest2 =>
    simp only [emojiStart]
    by_cases h : e = vs16
    · simp only [h, if_true]
      simpa using congrArg (fun t => c :: vs16 :: t) (emojiTail_append rest2)
    · simp only [h, if_false]
      simpa using congrArg (fun t => c :: t) (emojiTail_append (e :: rest2))

theorem simpleScanF_flatten : ∀ (fuel : Nat) (l : List Char), l.length ≤ fuel →
    ((simpleScanF fuel l).map tokChars).flatten = l := by
  intro fuel
  induction fuel with
  | zero =>
    intro l hl
    have : l = [] := List.length_eq_zero.mp (Nat.le_zero.mp hl)
    simp [this, simpleScanF]
  | succ n ih =>
    intro l hl
    match l with
    | [] => simp [simpleScanF]
    | c :: rest =>
      simp only [simpleScanF]
      by_cases h1 : isEP c = true
      · rw [if_pos h1]
        have hlen : (simpleTail rest).2.length ≤ n := by
          have := simpleTail_snd_length rest
          simp only [List.length_cons] at hl
          omega
        simp only [List.map_cons, List.flatten_cons, tokChars]
        rw [ih _ hlen, List.cons_append, simpleTail_append]
      · rw [if_neg h1]
        have hlen : rest.length ≤ n := by
          simp only [List.length_cons] at hl
          omega
        simp only [List.map_cons, List.flatten_cons, tokChars]
        rw [ih _ hlen]
        simp

theorem simpleScan_flatten (l : List Char) :
    ((simpleScan l).map tokChars).flatten = l :=
  simpleScanF_flatten l.length l (Nat.le_refl _)

theorem simpleScan_ne_nil {l : List Char} (h : l ≠ []) : simpleScan l ≠ [] := by
  match l with
  | [] => exact absurd rfl h
  | c :: rest =>
    simp only [simpleScan, List.length_cons, simpleScanF]
    by_cases h1 : isEP c
    · simp [h1]
    · simp [h1]

theorem emojiScanF_all_plain : ∀ (fuel : Nat) (l : List Char), l.length ≤ fuel →
    (∀ c ∈ l, ¬ isEP c ∧ ¬ isRI c) →
    emojiScanF fuel l = l.map EToken.plain := by
  intro fuel
  induction fuel with
  | zero =>
    intro l hl _
    have : l = [] := List.length_eq_zero.mp (Nat.le_zero.mp hl)
    simp [this, emojiScanF]
  | succ n ih =>
    intro l hl hno
    match l with
    | [] => simp [emojiScanF]
    | c :: rest =>
      have hc := hno c (List.mem_cons_self c rest)
      simp only [emojiScanF, hc.1, hc.2, if_false, Bool.false_eq_true]
      have hlen : rest.length ≤ n := by
        simp only [List.length_cons] at hl
        omega
      rw [ih _ hlen (fun x hx => hno x (List.mem_cons_of_mem c hx))]
      simp

theorem emojiScan_all_plain {l : List Char} (hno : ∀ c ∈ l, ¬ isEP c ∧ ¬ isRI c) :
    emojiScan l = l.map EToken.plain :=
  emojiScanF_all_plain l.length l (Nat.le_refl _) hno

/-- The default short-character set of helper.ts (`SHORT_CHARACTERS`).
The source `Set` literal lists one character twice; the duplicate is kept
here, and membership is unaffected. -/
def SHORT_CHARACTERS : List Char :=
  ['í', 'ỉ', 'ị', 'ỉ', 'ì', 'i', 't', 'f', 'r', 'l', '.', ',', '|', ':', ';', '\'', '"', '!']

/-- The default long-character set of helper.ts (`LONG_CHARACTERS`). -/
def LONG_CHARACTERS : List Char :=
  ['m', 'w', 'M', 'W']

/-- `countShortCharactersHelper` of helper.ts: counts the code points of the
input that belong to the union of the caller-supplied short set and the
built-in `SHORT_CHARACTERS`.  (The source merges the two sets only when the
custom list is non-empty; merging unconditionally has the same membership.) -/
def countShortCharactersHelper (input : List Char) (customShortCharacters : List Char) : Nat :=
  input.countP (fun c => decide (c ∈ customShortCharacters ∨ c ∈ SHORT_CHARACTERS))

/-- Per-visual-unit contribution to `visualLength` in `getVisualLengthHelper`:
an `EMOJI_REGEX` match adds 1, and a run of other characters adds
`match.index - lastIndex`, i.e. its UTF-16 code-unit length. -/
def vlTok : EToken → Nat
  | .emoji _ => 1
  | .plain c => utf16Len c

/-- The record returned by `getVisualLengthHelper`. -/
structure VisualProfile where
  visualLength : Nat
  shortCharCount : Nat
  emojiCount : Nat
  longCharCount : Nat
deriving Repr, DecidableEq

/-- `getVisualLengthHelper` of helper.ts.  `visualLength` and `emojiCount`
are computed on the NFC-normalized string via `EMOJI_REGEX`; the short and
long character counts are computed on the raw input string. -/
def getVisualLengthHelper (nfc : List Char → List Char) (text : List Char)
    (customShortCharacters customLongCharacters : List Char) : VisualProfile :=
  if text = [] then ⟨0, 0, 0, 0⟩
  else
    let toks := emojiScan (nfc text)
    { visualLength := (toks.map vlTok).sum
      shortCharCount := countShortCharactersHelper text customShortCharacters
      emojiCount := (toks.filter (fun t => match t with | .emoji _ => true | .plain _ => false)).length
      longCharCount := text.countP
        (fun c => decide (c ∈ customLongCharacters ∨ c ∈ LONG_CHARACTERS)) }

/-- `visualSliceHelper` of helper.ts: splits the (raw, un-normalized) string
into segments via `SIMPLE_EMOJI_REGEX` — one segment per emoji match, one
segment per other code point — then performs a JavaScript-`slice` over the
segment array with clamping and negative-index handling, and joins. -/
def visualSliceHelper (text : List Char) (start : Int) (stop? : Option Int) : List Char :=
  if text = [] then []
  else
    let segments := (simpleScan text).map tokChars
    let totalLength : Int := segments.length
    if totalLength ≤ start then []
    else
      let ns0 : Int := if start < 0 then max 0 (totalLength + start) else start
      let ne0 : Int :=
        match stop? with
        | none => totalLength
        | some e => if e < 0 then max 0 (totalLength + e) else e
      let ns := max 0 (min ns0 totalLength)
      let ne := max 0 (min ne0 totalLength)
      if ne ≤ ns then []
      else (((segments.drop ns.toNat).take (ne - ns).toNat)).flatten

/-- The `getCharWidth` closure shared by `calculateSlicePositionHelper` and
`calculateStringWidthHelper` (proportional mode), acting on one UTF-16 code
unit of the normalized string (`none` models reading past the end, where the
source substitutes the empty string).  A space is 0.5×; members of the merged
short set are 0.5×; members of the merged long set are 1.5×; otherwise 1×. -/
def getCharWidthU (customShort customLong : List Char) (charWidth : ℚ) (u : Option Nat) : ℚ :=
  match u with
  | none => charWidth
  | some n =>
    if n = 32 then charWidth * (1/2)
    else if n ∈ customShort.map Char.toNat ∨ n ∈ SHORT_CHARACTERS.map Char.toNat then
      charWidth * (1/2)
    else if n ∈ customLong.map Char.toNat ∨ n ∈ LONG_CHARACTERS.map Char.toNat then
      charWidth * (3/2)
    else charWidth

/-- `calculateStringWidthHelper` of helper.ts: total visual width of a string.
Emoji matches cost `2 × charWidth`; in monospaced mode every other UTF-16
code unit costs `charWidth`; in proportional mode every other code unit is
charged through `getCharWidth`. -/
def calculateStringWidthHelper (nfc : List Char → List Char) (text : List Char)
    (charWidth : ℚ) (isMonospaced : Bool) (customShort customLong : List Char) : ℚ :=
  if text = [] then 0
  else
    let toks := emojiScan (nfc text)
    if isMonospaced then
      toks.foldl
        (fun acc t =>
          acc + match t with
                | .emoji _ => charWidth * 2
                | .plain c => (utf16Len c : ℚ) * charWidth) 0
    else
      toks.foldl
        (fun acc t =>
          acc + match t with
                | .emoji _ => charWidth * 2
                | .plain c =>
                  ((utf16Units c).map
                    (fun u => getCharWidthU customShort customLong charWidth (some u))).sum) 0

/-- `balanceDiffHelper` of helper.ts.  Note the parameter order of the
source: `(numOfEmojis, numOfShortCharacters, numOfLongCharacters)`, with the
body `numOfEmojis + 0.5 * numOfLongCharacters - 0.5 * numOfShortCharacters`. -/
def balanceDiffHelper (numOfEmojis numOfShortCharacters numOfLongCharacters : Nat) : ℚ :=
  (numOfEmojis : ℚ) + (1/2) * (numOfLongCharacters : ℚ) - (1/2) * (numOfShortCharacters : ℚ)

/-- UTF-16 length of a character run. -/
def u16LenOf (cs : List Char) : Nat :=
  (cs.map utf16Len).sum

/-- The `(match.index, lastIndex-after-match)` pairs, in UTF-16 code units,
of the `EMOJI_REGEX` matches of a scanned string, starting at offset `off`. -/
def matchList : List EToken → Nat → List (Nat × Nat)
  | [], _ => []
  | .emoji cs :: ts, off => (off, off + u16LenOf cs) :: matchList ts (off + u16LenOf cs)
  | .plain c :: ts, off => matchList ts (off + utf16Len c)

/-- The visual-position sequence built by both branches of
`calculateSlicePositionHelper`: an emoji match is one position; every UTF-16
code unit outside matches is one position (`true` marks emoji positions,
mirroring the `emojiPositions` map). -/
def posIsEmojiList : List EToken → List Bool
  | [] => []
  | .emoji _ :: ts => true :: posIsEmojiList ts
  | .plain c :: ts => List.replicate (utf16Len c) false ++ posIsEmojiList ts

/-- The lock-step gap loop shared by the position-walks in
`calculateSlicePositionHelper`: starting from UTF-16 index `li` and visual
position `cvp`, step both by one while `li` is below the fuel-encoded bound
and `cvp ≤ i`; report `some charIndex` when `cvp` reaches `i`.  The fuel is
`bound - li`, so the `0` case is the `lastIndex < bound` exit. -/
def gapWalk : Nat → Nat → Nat → Nat → Option Nat × Nat × Nat
  | 0, li, cvp, _ => (none, li, cvp)
  | fuel + 1, li, cvp, i =>
    if cvp ≤ i then
      if cvp = i then (some li, li, cvp)
      else gapWalk fuel (li + 1) (cvp + 1) i
    else (none, li, cvp)

/-- The character-locating walk of the proportional width loop
(helper.ts lines 452–492).  It is handed the `EMOJI_REGEX` matches still
reachable from the regex's current (possibly stale) `lastIndex`, and walks
gaps and matches from local `lastIndex = 0`, `currentVisualPos = 0` looking
for visual position `i`.  Returns the located `charIndex` (0 if never found,
the variable's initial value) together with the regex `lastIndex` left
behind: the end of the last executed match on an early break, or 0 after
`exec` returns `null`. -/
def walkW (i nfcLen : Nat) : List (Nat × Nat) → Nat → Nat → Nat × Nat
  | [], li, cvp =>
    match gapWalk (nfcLen - li) li cvp i with
    | (some ci, _, _) => (ci, 0)
    | (none, _, _) => (0, 0)
  | (s, e) :: ms, li, cvp =>
    match gapWalk (s - li) li cvp i with
    | (some ci, _, _) => (ci, e)
    | (none, li', cvp') =>
      if cvp' = i then (li', e)
      else walkW i nfcLen ms e (cvp' + 1)

/-- The character-locating walk of the proportional trailing-space check
(helper.ts lines 500–528), always started with a freshly reset regex.  Same
shape as `walkW` except that the post-gap `currentVisualPos === i - 1`
break does not assign `charIndex`, which therefore keeps its initial 0. -/
def walkS (j nfcLen : Nat) : List (Nat × Nat) → Nat → Nat → Nat
  | [], li, cvp =>
    match gapWalk (nfcLen - li) li cvp j with
    | (some ci, _, _) => ci
    | (none, _, _) => 0
  | (s, e) :: ms, li, cvp =>
    match gapWalk (s - li) li cvp j with
    | (some ci, _, _) => ci
    | (none, _, cvp') =>
      if cvp' = j then 0
      else walkS j nfcLen ms e (cvp' + 1)

/-- The character-locating walk of the monospaced trailing-space check
(helper.ts lines 345–367): processes whole gaps at a time, threads a
`charIndex` variable that is also updated on non-breaking paths, and — unlike
the proportional walks — has no trailing loop after the matches are
exhausted, so it simply reports the threaded `charIndex` then. -/
def monoWalk (j : Nat) : List (Nat × Nat) → Nat → Nat → Nat → Nat
  | [], _, _, ci => ci
  | (s, e) :: ms, li, vi, _ =>
    if li < s then
      let rc := s - li
      if vi + rc > j then li + (j - vi)
      else if vi + rc = j then s
      else monoWalk j ms e (vi + rc + 1) e
    else
      if vi = j then s
      else monoWalk j ms e (vi + 1) e

/-- The descending accumulation loop shared by both branches of
`calculateSlicePositionHelper` (`for (let i = total - 1; i >= 0; i--)`).
`k + 1` means the current index is `k`; `widthAt` yields the width charged at
an index together with the updated regex state; `extAt` is the trailing-space
extension test.  On `accumulated ≥ target` the loop returns
`-(slicePosition [+ 1])`; falling through returns `-total`. -/
def scanLoop {σ : Type} (widthAt : Nat → σ → ℚ × σ) (extAt : Nat → Bool)
    (total : Nat) (target : ℚ) : Nat → ℚ → Nat → σ → Int
  | 0, _, _, _ => -(total : Int)
  | k + 1, acc, sp, st =>
    let p := widthAt k st
    let acc' := acc + p.1
    let sp' := sp + 1
    if target ≤ acc' then
      if extAt k then -((sp' : Int) + 1) else -(sp' : Int)
    else scanLoop widthAt extAt total target k acc' sp' p.2

/-- `calculateSlicePositionHelper` of helper.ts.  Models both the monospaced
and the proportional branch, including the fact that the proportional width
walk reuses the module-level `EMOJI_REGEX` without resetting `lastIndex`
between iterations of the descending loop (the threaded `σ = Nat` state),
while both trailing-space walks run from a freshly reset regex. -/
def calculateSlicePositionHelper (nfc : List Char → List Char) (text : List Char)
    (charWidth targetWidth : ℚ) (isMonospaced : Bool)
    (customShort customLong : List Char) : Int :=
  if text = [] ∨ targetWidth ≤ 0 then 0
  else
    let normalized := nfc text
    let toks := emojiScan normalized
    let posE := posIsEmojiList toks
    let total := posE.length
    let u16 := strUtf16 normalized
    let nfcLen := u16.length
    let ms := matchList toks 0
    if isMonospaced then
      scanLoop
        (fun k _ => (if posE.getD k false then charWidth * 2 else charWidth, ()))
        (fun k =>
          decide (0 < k) && !(posE.getD (k - 1) false) &&
          (let ci := monoWalk (k - 1) ms 0 0 0
           decide (ci < nfcLen) && decide (u16.getD ci 0 = 32)))
        total targetWidth total 0 0 ()
    else
      scanLoop
        (fun k st =>
          if posE.getD k false then (charWidth * 2, st)
          else
            let p := walkW k nfcLen (ms.dropWhile (fun m => decide (m.1 < st))) 0 0
            (getCharWidthU customShort customLong charWidth u16[p.1]?, p.2))
        (fun k =>
          decide (0 < k) && !(posE.getD (k - 1) false) &&
          decide (u16[walkS (k - 1) nfcLen ms 0 0]? = some 32))
        total targetWidth total 0 0 0

/-- The walk of the spec's SlicePositionCalculator over reversed
(unit, width) pairs: accumulate until the target is reached, then extend by
one when the unit immediately preceding the cut is a plain space; if the
target is never reached, return the total visual length. -/
def specWalk (target : ℚ) : List (EToken × ℚ) → ℚ → Nat → Nat → Nat
  | [], _, _, totalLen => totalLen
  | (_, wd) :: rest, acc, consumed, totalLen =>
    let acc' := acc + wd
    let consumed' := consumed + 1
    if target ≤ acc' then
      match rest with
      | (EToken.plain c, _) :: _ => if c = ' ' then consumed' + 1 else consumed'
      | _ => consumed'
    else specWalk target rest acc' consumed' totalLen

/-- Follows the spec's words (§4.4 SlicePositionCalculator), for comparison
with `calculateSlicePositionHelper`: walk the string's visual units (emoji
clusters atomic) from the end, charging `2 × unitWidth` per emoji unit and
`unitWidth × class multiplier` per other unit (`unitWidth` flat in
monospaced mode); stop as soon as the accumulated width reaches
`targetWidth`, extending the cut by one unit when the unit immediately
preceding the cut point is a plain space; return 0 for empty text or
non-positive target, and the full visual length when the target is never
reached. -/
def slicePositionSpec (nfc : List Char → List Char) (text : List Char)
    (charWidth targetWidth : ℚ) (isMonospaced : Bool)
    (customShort customLong : List Char) : Nat :=
  if text = [] ∨ targetWidth ≤ 0 then 0
  else
    let units := emojiScan (nfc text)
    let widths := units.map
      (fun t =>
        match t with
        | .emoji _ => charWidth * 2
        | .plain c =>
          if isMonospaced then charWidth
          else getCharWidthU customShort customLong charWidth (some c.toNat))
    specWalk targetWidth ((units.zip widths).reverse) 0 0 units.length

/-- One host-reported wrapped line: text plus rendered pixel width
(`TextLayoutLine` as consumed by rnShowMoreText.tsx). -/
structure LineMeasurement where
  text : List Char
  width : ℚ
deriving Repr, DecidableEq

/-- The outcome of one truncation computation: whether a "Show more"
affordance is needed, and the text to display (the affordance itself is
rendered separately by the host). -/
structure TruncationResult where
  needsTruncation : Bool
  displayText : List Char
deriving Repr, DecidableEq

/-- `text.endsWith("\n") ? text.slice(0, -1) : text` as used on the last
visible line and on the accumulated visible text. -/
def stripTrailingNewline (l : List Char) : List Char :=
  if l.getLast? = some '\n' then l.dropLast else l

/-- JavaScript `String.prototype.trim`, restricted to the whitespace
characters that can occur here. -/
def isJsWhitespace (c : Char) : Bool :=
  c = ' ' ∨ c = '\t' ∨ c = '\n' ∨ c = '\r'

def jsTrim (l : List Char) : List Char :=
  ((l.dropWhile isJsWhitespace).reverse.dropWhile isJsWhitespace).reverse

/-- The rendered affordance text of rnShowMoreText.tsx:
`` `... ${(readMoreText || "Show more").trim()}` `` (an empty caller string
is falsy and falls back to the default label). -/
def readMoreContent (readMoreText : List Char) : List Char :=
  "... ".toList ++ jsTrim (if readMoreText = [] then "Show more".toList else readMoreText)

/-- The per-unit width estimate computed by `calculateTruncatedText` for the
last visible line: the measured width divided by the visual length when the
latter is positive (0 otherwise), then corrected through `balanceDiffHelper`
exactly as in rnShowMoreText.tsx lines 815–835. -/
def adjustedCharWidth (lastRowWidth : ℚ) (prof : VisualProfile) : ℚ :=
  let avg0 : ℚ := if 0 < prof.visualLength then lastRowWidth / (prof.visualLength : ℚ) else 0
  let balance := balanceDiffHelper prof.emojiCount prof.shortCharCount prof.longCharCount
  if balance = 0 then avg0
  else
    avg0 *
      (if balance < 0 then 1 + |balance| / (prof.visualLength : ℚ)
       else 1 - |balance| / (prof.visualLength : ℚ))

/-- The estimate the engine derives from line `numberOfLines` (1-based) of
the measurements; this exact value is what the engine passes as the
`charWidth` argument of `calculateSlicePositionHelper`. -/
def engineAvgCharWidth (nfc : List Char → List Char) (lines : List LineMeasurement)
    (numberOfLines : Nat) (shortOv longOv : List Char) : ℚ :=
  let lastRow := (lines.getD (numberOfLines - 1) ⟨[], 0⟩)
  adjustedCharWidth lastRow.width
    (getVisualLengthHelper nfc (stripTrailingNewline lastRow.text) shortOv longOv)

/-- The `avgCharWidth || 1` fallback applied where the engine computes the
affordance width (rnShowMoreText.tsx line 841). -/
def engineAffordanceCharWidth (avg : ℚ) : ℚ :=
  if avg = 0 then 1 else avg

/-- `calculateTruncatedText` of rnShowMoreText.tsx as a pure function.
`none` models the early return when no line measurements or no container
width are available yet (the host must retry after layout), and also the
`numberOfLines = 0` corner where the source would throw reading
`lines[-1].width`.  In the no-truncation branch the display text is the full
input (`fullTextRef` keeps the `children` prop). -/
def calculateTruncatedText (nfc : List Char → List Char) (lines : List LineMeasurement)
    (containerWidth : ℚ) (numberOfLines : Nat) (fullText readMoreText : List Char)
    (compensationSpace : ℚ) (isMonospaced : Bool) (shortOv longOv : List Char) :
    Option TruncationResult :=
  if lines.length = 0 ∨ containerWidth = 0 then none
  else if numberOfLines < lines.length then
    if numberOfLines = 0 then none
    else
      let visibleText := ((lines.take numberOfLines).map LineMeasurement.text).flatten
      let lastRow := lines.getD (numberOfLines - 1) ⟨[], 0⟩
      let lastRowForWidthCalc := stripTrailingNewline lastRow.text
      let avgCharWidth := engineAvgCharWidth nfc lines numberOfLines shortOv longOv
      let readMoreTextLength := calculateStringWidthHelper nfc (readMoreContent readMoreText)
        (engineAffordanceCharWidth avgCharWidth) isMonospaced shortOv longOv
      let targetLastLineWidth := containerWidth - readMoreTextLength
      let visibleText' := stripTrailingNewline visibleText
      let lastLineWidth := lastRow.width
      let sliceEndOffset : Option Int :=
        if lastLineWidth ≤ targetLastLineWidth then none
        else
          some (calculateSlicePositionHelper nfc lastRowForWidthCalc avgCharWidth
            (readMoreTextLength + compensationSpace * avgCharWidth) isMonospaced shortOv longOv)
      let endArg : Option Int :=
        match sliceEndOffset with
        | none => none
        | some v => if v = 0 then none else some v
      some ⟨true, jsTrim (visualSliceHelper visibleText' 0 endArg)⟩
  else
    some ⟨false, fullText⟩

/-- The module-level normalization cache of helper.ts, as an association
list from raw input to stored normalization. -/
abbrev NormCache : Type := List (List Char × List Char)

/-- A cache state is well formed when every stored entry is the
normalization of its key.  Since the cache is module-private and only
written by `getNormalizedString`, this characterizes exactly the reachable
cache states. -/
def cacheWF (nfc : List Char → List Char) (cache : NormCache) : Prop :=
  ∀ p ∈ cache, p.2 = nfc p.1

/-- `getNormalizedString` of helper.ts: serve a hit from the cache;
otherwise normalize, clear the cache first when it holds more than 1000
entries, store, and return.  Returns the result together with the updated
cache. -/
def getNormalizedString (nfc : List Char → List Char) (cache : NormCache)
    (text : List Char) : List Char × NormCache :=
  match (List.find? (fun p => decide (p.1 = text)) cache).map Prod.snd with
  | some v => (v, cache)
  | none =>
    let normalized := nfc text
    let base : NormCache := if 1000 < cache.length then [] else cache
    (normalized, (text, normalized) :: base)

/-- Shared concrete inputs used by the evaluation theorems below. -/
def smile : Char := Char.ofNat 0x1F642

def flagUS : List Char := [Char.ofNat 0x1F1FA, Char.ofNat 0x1F1F8]

def c4Input : List Char := [smile, ' ', 'b', smile, 'c']

def c8Lines : List LineMeasurement := [⟨['\n'], 0⟩, ⟨['x'], 1⟩]

def c8wLines : List LineMeasurement := [⟨[], 0⟩, ⟨['x'], 1⟩]

theorem scanLoop_natAbs_bounds {σ : Type} (widthAt : Nat → σ → ℚ × σ) (extAt : Nat → Bool)
    (total : Nat) (t : ℚ) (hext : extAt 0 = false) :
    ∀ k acc sp st, sp + k = total →
      sp ≤ (scanLoop widthAt extAt total t k acc sp st).natAbs ∧
      (scanLoop widthAt extAt total t k acc sp st).natAbs ≤ total ∧
      (1 ≤ k → sp + 1 ≤ (scanLoop widthAt extAt total t k acc sp st).natAbs) := by
  intro k
  induction k with
  | zero =>
    intro acc sp st hsp
    simp only [scanLoop]
    refine ⟨?_, ?_, ?_⟩ <;> omega
  | succ n ih =>
    intro acc sp st hsp
    simp only [scanLoop]
    by_cases hc : t ≤ acc + (widthAt n st).1
    · rw [if_pos hc]
      by_cases he : extAt n = true
      · rw [if_pos he]
        have hn : n ≠ 0 := by
          intro h0
          rw [h0, hext] at he
          exact Bool.noConfusion he
        refine ⟨?_, ?_, ?_⟩ <;> omega
      · rw [if_neg he]
        refine ⟨?_, ?_, ?_⟩ <;> omega
    · rw [if_neg hc]
      have h := ih (acc + (widthAt n st).1) (sp + 1) (widthAt n st).2 (by omega)
      refine ⟨?_, ?_, ?_⟩ <;> omega

theorem scanLoop_mono {σ : Type} (widthAt : Nat → σ → ℚ × σ) (extAt : Nat → Bool)
    (total : Nat) {t1 t2 : ℚ} (hext : extAt 0 = false) (h12 : t1 ≤ t2) :
    ∀ k acc sp st, sp + k = total →
      (scanLoop widthAt extAt total t1 k acc sp st).natAbs ≤
        (scanLoop widthAt extAt total t2 k acc sp st).natAbs := by
  intro k
  induction k with
  | zero =>
    intro acc sp st _
    simp [scanLoop]
  | succ n ih =>
    intro acc sp st hsp
    simp only [scanLoop]
    by_cases h2 : t2 ≤ acc + (widthAt n st).1
    · have h1 : t1 ≤ acc + (widthAt n st).1 := le_trans h12 h2
      rw [if_pos h1, if_pos h2]
    · rw [if_neg h2]
      by_cases h1 : t1 ≤ acc + (widthAt n st).1
      · rw [if_pos h1]
        have hb := scanLoop_natAbs_bounds widthAt extAt total t2 hext n
          (acc + (widthAt n st).1) (sp + 1) (widthAt n st).2 (by omega)
        by_cases he : extAt n = true
        · rw [if_pos he]
          have hn : n ≠ 0 := by
            intro h0
            rw [h0, hext] at he
            exact Bool.noConfusion he
          have h3 := hb.2.2 (by omega)
          omega
        · rw [if_neg he]
          have h3 := hb.1
          omega
      · rw [if_neg h1]
        exact ih _ _ _ (by omega)

/-- C7: the number of trailing visual units dropped by
`calculateSlicePositionHelper` (the magnitude of its result) never decreases
when `targetWidthPx` increases, for any fixed text, unit width, monospaced
flag and override sets.  The per-index widths and the threaded regex state do
not depend on the target, so a larger target can only move the stopping
point further from the end, and the one-unit trailing-space extension never
overtakes a later stop. -/
theorem slicePosition_monotone_in_target (nfc : List Char → List Char) (text : List Char)
    (charWidth : ℚ) (isMonospaced : Bool) (customShort customLong : List Char)
    {t1 t2 : ℚ} (h : t1 ≤ t2) :
    (calculateSlicePositionHelper nfc text charWidth t1 isMonospaced customShort customLong).natAbs ≤
      (calculateSlicePositionHelper nfc text charWidth t2 isMonospaced customShort customLong).natAbs := by
  by_cases hempty : text = []
  · simp [calculateSlicePositionHelper, hempty]
  by_cases ht1 : t1 ≤ 0
  · rw [calculateSlicePositionHelper, if_pos (Or.inr ht1)]
    simp
  · have ht2 : ¬ t2 ≤ 0 := fun hh => ht1 (le_trans h hh)
    have hg1 : ¬ (text = [] ∨ t1 ≤ 0) := by tauto
    have hg2 : ¬ (text = [] ∨ t2 ≤ 0) := by tauto
    rw [calculateSlicePositionHelper, if_neg hg1, calculateSlicePositionHelper, if_neg hg2]
    cases isMonospaced with
    | true =>
      simp only [if_true]
      exact scanLoop_mono _ _ _ (by simp) h _ _ _ _ (Nat.zero_add _)
    | false =>
      simp only [Bool.false_eq_true, if_false]
      exact scanLoop_mono _ _ _ (by simp) h _ _ _ _ (Nat.zero_add _)

/-- Witness for C7 at a concrete input. -/
theorem slicePosition_monotone_in_target_witness :
    (calculateSlicePositionHelper id ['a'] 1 1 false [] []).natAbs ≤
      (calculateSlicePositionHelper id ['a'] 1 2 false [] []).natAbs :=
  slicePosition_monotone_in_target id ['a'] 1 false [] [] (by norm_num)

/-- C10: slicing from visual position 0 with the end index omitted is the
identity: the slicer segments the string with `SIMPLE_EMOJI_REGEX` and
rejoins every segment, reproducing the input unchanged. -/
theorem visualSlice_full_range_identity (text : List Char) :
    visualSliceHelper text 0 none = text := by
  by_cases h : text = []
  · simp [visualSliceHelper, h]
  · have hseg : simpleScan text ≠ [] := simpleScan_ne_nil h
    have hpos : 0 < ((simpleScan text).map tokChars).length := by
      simpa using List.length_pos.mpr hseg
    simp only [visualSliceHelper, if_neg h]
    rw [if_neg (by omega : ¬ ((((simpleScan text).map tokChars).length : Int) ≤ 0))]
    have e1 : (max 0 (min (0 : Int) (((simpleScan text).map tokChars).length : Int))) = 0 := by
      omega
    have e2 : (max 0 (min (((simpleScan text).map tokChars).length : Int)
        (((simpleScan text).map tokChars).length : Int))) =
        (((simpleScan text).map tokChars).length : Int) := by
      omega
    simp only [show ¬ ((0:Int) < 0) from by omega, if_false, e1, e2]
    rw [if_neg (by omega : ¬ ((((simpleScan text).map tokChars).length : Int) ≤ 0))]
    simp only [Int.toNat_zero, List.drop_zero, Int.sub_zero, Int.toNat_natCast,
      List.take_length]
    exact simpleScan_flatten text

/-- C1: the spec requires the visual slicer never to emit half of an emoji
cluster, two-regional-indicator flags included (spec §4.5 and Scenario D),
and the analyzer side of the code indeed counts the flag 🇺🇸 as one visual
unit; but `visualSliceHelper` segments with `SIMPLE_EMOJI_REGEX`, which has
no regional-indicator alternative, so slicing the flag at cut point 1
returns a lone regional indicator — half of the flag. -/
theorem visualSlice_splits_flag_eval :
    (getVisualLengthHelper id flagUS [] []).visualLength = 1 ∧
    (getVisualLengthHelper id flagUS [] []).emojiCount = 1 ∧
    visualSliceHelper flagUS 0 (some 1) = [Char.ofNat 0x1F1FA] := by
  decide

/-- C2: when the host supplies at most `numberOfLines` line measurements
(and measurements plus a container width are present at all), the engine
resolves to no truncation and the display text is the full input unchanged;
in particular equality `lineMeasurements.length = maxLines` resolves to no
truncation, because the truncation branch requires strictly more lines. -/
theorem fits_within_lines_no_truncation (nfc : List Char → List Char)
    (lines : List LineMeasurement) (containerWidth : ℚ) (numberOfLines : Nat)
    (fullText readMoreText : List Char) (compensationSpace : ℚ) (isMonospaced : Bool)
    (shortOv longOv : List Char)
    (hne : lines ≠ []) (hcw : containerWidth ≠ 0)
    (hfit : lines.length ≤ numberOfLines) :
    calculateTruncatedText nfc lines containerWidth numberOfLines fullText readMoreText
      compensationSpace isMonospaced shortOv longOv = some ⟨false, fullText⟩ := by
  have h1 : ¬ (lines.length = 0 ∨ containerWidth = 0) := by
    push_neg
    exact ⟨fun h => hne (List.length_eq_zero.mp h), hcw⟩
  have h2 : ¬ (numberOfLines < lines.length) := by omega
  rw [calculateTruncatedText, if_neg h1, if_neg h2]

/-- Witness for C2 at a concrete input with exactly as many measured lines
as the limit allows. -/
theorem fits_within_lines_no_truncation_witness :
    calculateTruncatedText id [⟨['a'], 1⟩] 10 1 ['a', 'b'] [] 0 false [] [] =
      some ⟨false, ['a', 'b']⟩ :=
  fits_within_lines_no_truncation id [⟨['a'], 1⟩] 10 1 ['a', 'b'] [] 0 false [] []
    (by decide) (by norm_num) (by decide)

/-- C3: for a last visible line with nonzero visual length, the per-unit
width estimate the engine uses equals the naive average (measured width over
visual length) scaled by `1 + |balance|/visualLength` when the balance is
negative, by `1 - |balance|/visualLength` when it is positive, and left
unscaled when it is zero, where
`balance = emojiCount + 0.5·longCount - 0.5·shortCount`. -/
theorem adjustedCharWidth_balance_formula (lastRowWidth : ℚ) (prof : VisualProfile)
    (h : prof.visualLength ≠ 0) :
    adjustedCharWidth lastRowWidth prof =
      (let L : ℚ := (prof.visualLength : ℚ)
       let b : ℚ := (prof.emojiCount : ℚ) + (1/2) * (prof.longCharCount : ℚ)
         - (1/2) * (prof.shortCharCount : ℚ)
       if b < 0 then (lastRowWidth / L) * (1 + |b| / L)
       else if 0 < b then (lastRowWidth / L) * (1 - |b| / L)
       else lastRowWidth / L) := by
  have hv : 0 < prof.visualLength := Nat.pos_of_ne_zero h
  simp only [adjustedCharWidth, balanceDiffHelper, if_pos hv]
  set b : ℚ := (prof.emojiCount : ℚ) + 1 / 2 * (prof.longCharCount : ℚ)
    - 1 / 2 * (prof.shortCharCount : ℚ) with hb
  rcases lt_trichotomy b 0 with hlt | heq | hgt
  · rw [if_neg (ne_of_lt hlt), if_pos hlt, if_pos hlt]
  · rw [if_pos heq, if_neg (by rw [heq]; exact lt_irrefl 0),
      if_neg (by rw [heq]; exact lt_irrefl 0)]
  · rw [if_neg (ne_of_gt hgt), if_neg (not_lt.mpr (le_of_lt hgt)),
      if_neg (asymm hgt), if_pos hgt]

/-- Witness for C3: a line of 5 visual units, one of them short, measured at
width 10; the balance is -1/2 and the estimate is scaled up. -/
theorem adjustedCharWidth_balance_formula_witness :
    adjustedCharWidth 10 ⟨5, 1, 0, 0⟩ =
      (let L : ℚ := (((5 : Nat) : ℚ))
       let b : ℚ := (((0 : Nat) : ℚ)) + (1/2) * (((0 : Nat) : ℚ)) - (1/2) * (((1 : Nat) : ℚ))
       if b < 0 then ((10 : ℚ) / L) * (1 + |b| / L)
       else if 0 < b then ((10 : ℚ) / L) * (1 - |b| / L)
       else (10 : ℚ) / L) :=
  adjustedCharWidth_balance_formula 10 ⟨5, 1, 0, 0⟩ (by decide)

/-- C5 counterexample: U+10400 (DESERET CAPITAL LETTER LONG I) is a single
code point, NFC-stable, and matches neither emoji alternative, yet the
analyzer reports `visualLength = 2`, because the source counts the UTF-16
code units (`match.index - lastIndex`, `normalized.length`) of non-emoji
runs, not their code points. -/
theorem visualLength_codepoint_counterexample :
    (∀ c ∈ [Char.ofNat 0x10400], ¬ (isEP c = true) ∧ ¬ (isRI c = true)) ∧
    (getVisualLengthHelper id [Char.ofNat 0x10400] [] []).visualLength = 2 ∧
    (id [Char.ofNat 0x10400] : List Char).length = 1 := by
  decide

/-- C5 as amended: for a non-empty string whose normalization contains no
emoji (no extended-pictographic and no regional-indicator code point), the
analyzer's `visualLength` equals the number of UTF-16 code units of the
normalized string — which coincides with the code-point count exactly when
every character lies in the Basic Multilingual Plane. -/
theorem visualLength_utf16_of_no_emoji (nfc : List Char → List Char)
    (s customShort customLong : List Char) (hne : s ≠ [])
    (hno : ∀ c ∈ nfc s, ¬ (isEP c = true) ∧ ¬ (isRI c = true)) :
    (getVisualLengthHelper nfc s customShort customLong).visualLength =
      utf16Length (nfc s) := by
  simp only [getVisualLengthHelper, if_neg hne]
  rw [emojiScan_all_plain hno]
  simp only [utf16Length, List.map_map]
  congr 1

/-- Witness for C5's amended statement on a plain BMP string. -/
theorem visualLength_utf16_of_no_emoji_witness :
    (getVisualLengthHelper id ['a', 'b'] [] []).visualLength = utf16Length (id ['a', 'b']) :=
  visualLength_utf16_of_no_emoji id ['a', 'b'] [] [] (by decide) (by decide)

/-- C6 counterexample: the claim says the analyzer's short-character count
includes each space of the input, but `SHORT_CHARACTERS` contains no space
and `countShortCharactersHelper` reports 0 for a lone space. -/
theorem space_not_counted_short_counterexample :
    countShortCharactersHelper [' '] [] = 0 := by
  decide

/-- C6 as amended: the width computations (proportional mode) charge a
literal space `0.5 × unitWidth` before consulting any character set, so the
charge holds for every pair of override sets; but the analyzer's
short-character count does not include spaces unless the caller lists the
space in the short overrides. -/
theorem space_width_half_and_count_excludes_space (customShort customLong : List Char)
    (w : ℚ) (h : ' ' ∉ customShort) :
    getCharWidthU customShort customLong w (some (' '.toNat)) = w * (1/2) ∧
    countShortCharactersHelper [' '] customShort = 0 := by
  constructor
  · rfl
  · simp only [countShortCharactersHelper, List.countP_cons, List.countP_nil]
    have : ¬ (' ' ∈ customShort ∨ ' ' ∈ SHORT_CHARACTERS) := by
      push_neg
      exact ⟨h, by decide⟩
    simp [this]

/-- Witness for C6's amended statement. -/
theorem space_width_half_and_count_excludes_space_witness :
    getCharWidthU [] [] 2 (some (' '.toNat)) = 2 * (1/2) ∧
    countShortCharactersHelper [' '] [] = 0 :=
  space_width_half_and_count_excludes_space [] [] 2 (by decide)

/-- C8 counterexample: with a last visible line whose visual length is zero
(here a bare newline), the engine's estimate is 0; the affordance-width
computation substitutes 1 (`engineAffordanceCharWidth`), but the value the
engine passes as the `charWidth` of `calculateSlicePositionHelper` is the
raw `engineAvgCharWidth` — 0, not the claimed 1. -/
theorem slice_call_receives_zero_counterexample :
    engineAvgCharWidth id c8Lines 1 [] [] = 0 ∧
    engineAffordanceCharWidth (engineAvgCharWidth id c8Lines 1 [] []) = 1 ∧
    (0 : ℚ) ≠ 1 := by
  have h0 : engineAvgCharWidth id c8Lines 1 [] [] = 0 := by
    have hp : getVisualLengthHelper id
        (stripTrailingNewline ((c8Lines.getD 0 ⟨[], 0⟩).text)) [] [] = ⟨0, 0, 0, 0⟩ := by
      decide
    simp only [engineAvgCharWidth, c8Lines] at *
    rw [hp]
    norm_num [adjustedCharWidth, balanceDiffHelper]
  refine ⟨h0, ?_, by norm_num⟩
  rw [h0]
  simp [engineAffordanceCharWidth]

/-- C8 as amended: when the last visible line's visual profile is the zero
profile, the engine's estimate is 0; the affordance-width computation
substitutes 1 for it, while the slice-position computation receives the raw
zero estimate (no substitution).  No division by zero occurs anywhere: the
only division is guarded by the `visualLength > 0` check. -/
theorem zero_visualLength_fallback_only_affordance (nfc : List Char → List Char)
    (lines : List LineMeasurement) (numberOfLines : Nat) (shortOv longOv : List Char)
    (h : getVisualLengthHelper nfc
      (stripTrailingNewline ((lines.getD (numberOfLines - 1) ⟨[], 0⟩).text)) shortOv longOv =
      ⟨0, 0, 0, 0⟩) :
    engineAvgCharWidth nfc lines numberOfLines shortOv longOv = 0 ∧
    engineAffordanceCharWidth (engineAvgCharWidth nfc lines numberOfLines shortOv longOv) = 1 := by
  have h0 : engineAvgCharWidth nfc lines numberOfLines shortOv longOv = 0 := by
    simp only [engineAvgCharWidth]
    rw [h]
    norm_num [adjustedCharWidth, balanceDiffHelper]
  refine ⟨h0, ?_⟩
  rw [h0]
  simp [engineAffordanceCharWidth]

/-- Witness for C8's amended statement with an empty last visible line. -/
theorem zero_visualLength_fallback_only_affordance_witness :
    engineAvgCharWidth id c8wLines 1 [] [] = 0 ∧
    engineAffordanceCharWidth (engineAvgCharWidth id c8wLines 1 [] []) = 1 :=
  zero_visualLength_fallback_only_affordance id c8wLines 1 [] [] (by decide)

/-- C9: for every well-formed cache state — and well-formedness characterizes
exactly the states reachable through the module-private cache —
`getNormalizedString` returns exactly the normalization of its input, and
leaves the cache well formed; so the cache contents never influence the
output of the truncation computation, only its cost. -/
theorem getNormalizedString_cache_transparent (nfc : List Char → List Char)
    (cache : NormCache) (text : List Char) (h : cacheWF nfc cache) :
    (getNormalizedString nfc cache text).1 = nfc text ∧
    cacheWF nfc (getNormalizedString nfc cache text).2 := by
  unfold getNormalizedString
  cases hf : List.find? (fun p => decide (p.1 = text)) cache with
  | none =>
    simp only [hf, Option.map_none']
    constructor
    · trivial
    · intro p hp
      rcases List.mem_cons.mp hp with h1 | h2
      · rw [h1]
      · by_cases hc : 1000 < cache.length
        · simp only [if_pos hc] at h2
          exact absurd h2 (List.not_mem_nil p)
        · simp only [if_neg hc] at h2
          exact h p h2
  | some q =>
    have hq1 : q.1 = text := by
      have := List.find?_some hf
      simpa using this
    have hq2 : q ∈ cache := List.mem_of_find?_eq_some hf
    simp only [hf, Option.map_some']
    exact ⟨by rw [h q hq2, hq1], h⟩

/-- Witness for C9 on the empty (trivially well-formed) cache. -/
theorem getNormalizedString_cache_transparent_witness :
    (getNormalizedString id [] ['a']).1 = id ['a'] ∧
    cacheWF id (getNormalizedString id [] ['a']).2 :=
  getNormalizedString_cache_transparent id [] ['a'] (by intro p hp; simp at hp)

/-- C4: on the text "🙂 b🙂c" with unit width 1 and target 4.7
(proportional mode, no overrides), the accumulation described by the claim
charges, from the end, widths 1 ('c'), 2 (emoji), 1 ('b'), 0.5 (space),
2 (emoji): the space leaves the total at 4.5 < 4.7, so the least crossing
drop is 5 units (`slicePositionSpec`).  The code, however, reaches the space
with a stale `EMOJI_REGEX.lastIndex` left by the previous iteration's early
break, re-reads UTF-16 unit 1 — the low surrogate of the first emoji —
instead of the space, charges it a full 1, crosses the target one unit early
and returns -4. -/
theorem slicePosition_stale_regex_eval :
    calculateSlicePositionHelper id c4Input 1 (47/10) false [] [] = -4 ∧
    slicePositionSpec id c4Input 1 (47/10) false [] [] = 5 := by
  have h1 : emojiScan (id c4Input) =
      [.emoji [smile], .plain ' ', .plain 'b', .emoji [smile], .plain 'c'] := by decide
  have h2 : posIsEmojiList
      [EToken.emoji [smile], .plain ' ', .plain 'b', .emoji [smile], .plain 'c'] =
      [true, false, false, true, false] := by decide
  have h3 : matchList
      [EToken.emoji [smile], .plain ' ', .plain 'b', .emoji [smile], .plain 'c'] 0 =
      [(0, 2), (4, 6)] := by decide
  have h4 : strUtf16 (id c4Input) = [55357, 56898, 32, 98, 55357, 56898, 99] := by decide
  have hne : ¬ (c4Input = [] ∨ (47/10 : ℚ) ≤ 0) := by
    push_neg
    exact ⟨by decide, by norm_num⟩
  constructor
  · rw [calculateSlicePositionHelper, if_neg hne]
    simp only [h1, h2, h3, h4]
    norm_num +decide [scanLoop, walkW, walkS, gapWalk, getCharWidthU, List.getD,
      List.dropWhile]
  · rw [slicePositionSpec, if_neg hne]
    simp only [h1]
    norm_num +decide [specWalk, getCharWidthU, List.zip, List.zipWith, List.reverse]
